import Mathlib

/-!
Verification of the promises demo (`src/unnamed/part_000`) and the closure
counter demo (`src/Javascript Practice/Closure.js`).

The promises demo builds every deferred operation through `fetchData`, which
returns a promise settled by a single `setTimeout` callback.  We embed such a
promise as the record of the arguments it was created with, and give it a
time-indexed state: the executor runs synchronously but only schedules the
timer, so during the creating task the promise is pending; the timer callback
is the only code that ever calls `resolve` or `reject`, and the event loop
runs it once scheduler time reaches the requested delay.
-/

/-- A settlement result: JavaScript promises either fulfil with a value or
reject with a reason.  In this repository every rejection reason is a plain
string. -/
inductive Outcome (α : Type) where
  | fulfilled (value : α)
  | rejected (reason : String)
deriving DecidableEq

/-- The data a `fetchData` promise is created from: the arguments of the call
(`src/unnamed/part_000`, lines 25-35). -/
structure Deferred where
  apiName : String
  delay : Nat
  shouldFail : Bool
deriving DecidableEq

/-- `function fetchData(apiName, delay = 1000, shouldFail = false)`: builds the
promise record, with the source's default arguments. -/
def fetchData (apiName : String) (delay : Nat := 1000) (shouldFail : Bool := false) : Deferred :=
  { apiName := apiName, delay := delay, shouldFail := shouldFail }

/-- The outcome the timer callback produces: the source's
`if (shouldFail) reject(template) else resolve(template)`. -/
def Deferred.settleOutcome (d : Deferred) : Outcome String :=
  if d.shouldFail then Outcome.rejected ("Error fetching data from " ++ d.apiName)
  else Outcome.fulfilled (d.apiName ++ " data")

/-- The value `resolve` receives when the promise succeeds: `` `${apiName} data` ``. -/
def Deferred.successValue (d : Deferred) : String := d.apiName ++ " data"

/-- The reason `reject` receives when the promise fails:
`` `Error fetching data from ${apiName}` ``. -/
def Deferred.failureReason (d : Deferred) : String :=
  "Error fetching data from " ++ d.apiName

/-- The externally observable state of a promise. -/
inductive PromiseState where
  | pending
  | settled (outcome : Outcome String)
deriving DecidableEq

/-- An observation instant: `script` is during the synchronous task that called
`fetchData` (before control returns to the event loop); `loop t` is in the
event loop at scheduler time `t`. -/
inductive Instant where
  | script
  | loop (t : Nat)
deriving DecidableEq

/-- The state of a `fetchData` promise at an instant.  The executor only calls
`setTimeout`, so the promise is pending throughout the creating task; the timer
callback settles it once scheduler time reaches `delay`. -/
def Deferred.stateAt (d : Deferred) : Instant → PromiseState
  | Instant.script => PromiseState.pending
  | Instant.loop t =>
    if d.delay ≤ t then PromiseState.settled d.settleOutcome else PromiseState.pending

/-- The scheduler time at which a `then`/`catch` observer attached at instant
`a` is notified: not before the timer fires, and not before the attachment
itself. -/
def Deferred.notifyTime (d : Deferred) : Instant → Nat
  | Instant.script => d.delay
  | Instant.loop s => max s d.delay

/-- The input with the smallest delay, earliest one on ties — `setTimeout`
timers fire in scheduled-time order, first-in-first-out among equal times. -/
def firstSettling : List Deferred → Option Deferred
  | [] => none
  | d :: ds =>
    match firstSettling ds with
    | none => some d
    | some e => some (if e.delay < d.delay then e else d)

/-- A settled aggregate promise: when it settled and with what outcome. -/
structure AggResult (α : Type) where
  settleTime : Nat
  outcome : Outcome α
deriving DecidableEq

/-- The time by which every input has settled. -/
def maxDelay (ds : List Deferred) : Nat := (ds.map Deferred.delay).foldr max 0

/-- Modelled from the spec: the built-in `Promise.all` combinator the
repository invokes is not part of its sources.  Per the spec's all-succeed
contract it succeeds with the ordered sequence of success values once every
input has succeeded, or fails with the reason of the first input (by
settlement time) that fails. -/
def promiseAll (ds : List Deferred) : AggResult (List String) :=
  match firstSettling (ds.filter (fun d => d.shouldFail)) with
  | some f => { settleTime := f.delay, outcome := Outcome.rejected f.failureReason }
  | none => { settleTime := maxDelay ds, outcome := Outcome.fulfilled (ds.map Deferred.successValue) }

/-- Modelled from the spec: the built-in `Promise.race` combinator the
repository invokes is not part of its sources.  Per the spec's first-settled
contract it adopts the outcome of whichever input settles first, by time. -/
def promiseRace (ds : List Deferred) : Option (AggResult String) :=
  (firstSettling ds).map (fun d => { settleTime := d.delay, outcome := d.settleOutcome })

/-- Modelled from the spec: the built-in `Promise.allSettled` combinator the
repository invokes is not part of its sources.  Per the spec's all-settled
contract it always succeeds once every input has settled, with the per-input
tagged outcomes in input order. -/
def promiseAllSettled (ds : List Deferred) : AggResult (List (Outcome String)) :=
  { settleTime := maxDelay ds, outcome := Outcome.fulfilled (ds.map Deferred.settleOutcome) }

/-- The promises `getAllData` passes to `Promise.all`. -/
def getAllDataInputs : List Deferred :=
  [fetchData "API 3" 1000, fetchData "API 4" 1500, fetchData "API 5" 2000]

/-- The promises `getFastestData` passes to `Promise.race`. -/
def getFastestDataInputs : List Deferred :=
  [fetchData "Fast API" 500, fetchData "Slower API" 1000, fetchData "Slowest API" 1500]

/-- The promises `fetchAllWithErrors` passes to `Promise.all`; the second one
is created with `shouldFail = true`. -/
def fetchAllWithErrorsInputs : List Deferred :=
  [fetchData "API 6" 800, fetchData "API 7" 1200 true, fetchData "API 8" 1000]

/-- The promises `fetchWithAllSettled` passes to `Promise.allSettled`; the
second one is created with `shouldFail = true`. -/
def fetchWithAllSettledInputs : List Deferred :=
  [fetchData "API 9" 1000, fetchData "API 10" 500 true, fetchData "API 11" 1500]

/-!
Embedding of the closure counter demo.  `createCounter` captures one private
`count` variable per invocation; the three returned operations are the only
code that reads or writes it.
-/

/-- The three operations a counter instance exposes. -/
inductive CounterOp where
  | increment
  | decrement
  | reset
deriving DecidableEq

/-- The effect of one operation on the private `count`:
`count += 1`, `count -= 1`, `count = 0`. -/
def applyOp : Int → CounterOp → Int
  | count, CounterOp.increment => count + 1
  | count, CounterOp.decrement => count - 1
  | _, CounterOp.reset => 0

/-- The private count of one counter instance after a sequence of its own
operations, starting from the factory's `let count = 0`. -/
def runCounter (ops : List CounterOp) : Int := ops.foldl applyOp 0

/-- The world of counter instances created so far: one private count per
`createCounter` invocation, each reachable only through its own instance. -/
abbrev CounterWorld := List Int

/-- `createCounter()`: allocates a fresh private count initialised to 0 and
returns the new world together with the new instance's identity. -/
def createCounter (w : CounterWorld) : CounterWorld × Nat := (w ++ [0], w.length)

/-- Update the private count of one instance, leaving every other alone. -/
def modifyAt : CounterWorld → Nat → (Int → Int) → CounterWorld
  | [], _, _ => []
  | c :: cs, 0, f => f c :: cs
  | c :: cs, n + 1, f => c :: modifyAt cs n f

/-- Run one operation of instance `i`: the closure writes only its own
captured `count`. -/
def applyOpAt (w : CounterWorld) (i : Nat) (op : CounterOp) : CounterWorld :=
  modifyAt w i (fun c => applyOp c op)

/-- The observable value of instance `i` (what its operations log). -/
def countOf (w : CounterWorld) (i : Nat) : Int := w.getD i 0

/-! Helper lemmas about the scheduler order and the counter store. -/

theorem firstSettling_isSome {ds : List Deferred} (h : ds ≠ []) :
    ∃ e, firstSettling ds = some e := by
  cases ds with
  | nil => exact absurd rfl h
  | cons d ds =>
    simp only [firstSettling]
    cases firstSettling ds with
    | none => exact ⟨d, rfl⟩
    | some f => exact ⟨if f.delay < d.delay then f else d, rfl⟩

theorem firstSettling_mem {ds : List Deferred} {e : Deferred}
    (h : firstSettling ds = some e) : e ∈ ds := by
  induction ds generalizing e with
  | nil => simp [firstSettling] at h
  | cons d ds ih =>
    simp only [firstSettling] at h
    cases hfs : firstSettling ds with
    | none => rw [hfs] at h; simp at h; simp [h]
    | some f =>
      rw [hfs] at h
      simp only [Option.some.injEq] at h
      by_cases hlt : f.delay < d.delay
      · rw [if_pos hlt] at h
        exact List.mem_cons_of_mem _ (h ▸ ih hfs)
      · rw [if_neg hlt] at h
        simp [h]

theorem firstSettling_le {ds : List Deferred} {e : Deferred}
    (h : firstSettling ds = some e) : ∀ x ∈ ds, e.delay ≤ x.delay := by
  induction ds generalizing e with
  | nil => simp [firstSettling] at h
  | cons d ds ih =>
    simp only [firstSettling] at h
    cases hfs : firstSettling ds with
    | none =>
      rw [hfs] at h
      simp only [Option.some.injEq] at h
      subst h
      intro x hx
      rcases List.mem_cons.mp hx with hx | hx
      · subst hx; exact Nat.le_refl _
      · obtain ⟨f, hf⟩ := firstSettling_isSome (List.ne_nil_of_mem hx)
        rw [hf] at hfs; cases hfs
    | some f =>
      rw [hfs] at h
      simp only [Option.some.injEq] at h
      have hfle := ih hfs
      intro x hx
      rcases List.mem_cons.mp hx with hx | hx
      · by_cases hlt : f.delay < d.delay
        · rw [if_pos hlt] at h; subst h; rw [hx]; exact Nat.le_of_lt hlt
        · rw [if_neg hlt] at h; subst h; rw [hx]
      · have hfx := hfle x hx
        by_cases hlt : f.delay < d.delay
        · rw [if_pos hlt] at h; subst h; exact hfx
        · rw [if_neg hlt] at h; subst h
          exact Nat.le_trans (Nat.le_of_not_lt hlt) hfx

theorem firstSettling_eq_of_min {ds : List Deferred} {d : Deferred}
    (hmem : d ∈ ds) (hmin : ∀ e ∈ ds, e ≠ d → d.delay < e.delay) :
    firstSettling ds = some d := by
  obtain ⟨e, he⟩ := firstSettling_isSome (List.ne_nil_of_mem hmem)
  have hed : e = d := by
    by_contra hne
    have h1 := hmin e (firstSettling_mem he) hne
    have h2 := firstSettling_le he d hmem
    omega
  rw [he, hed]

theorem le_maxDelay {ds : List Deferred} {d : Deferred} (h : d ∈ ds) :
    d.delay ≤ maxDelay ds := by
  induction ds with
  | nil => simp at h
  | cons a l ih =>
    rcases List.mem_cons.mp h with h | h
    · subst h; simp [maxDelay, List.foldr]
    · have := ih h
      simp only [maxDelay, List.map_cons, List.foldr] at this ⊢
      omega

theorem modifyAt_countOf_ne (w : CounterWorld) (i j : Nat) (f : Int → Int)
    (h : i ≠ j) : countOf (modifyAt w i f) j = countOf w j := by
  induction w generalizing i j with
  | nil => simp [modifyAt]
  | cons c cs ih =>
    cases i with
    | zero =>
      cases j with
      | zero => exact absurd rfl h
      | succ j => simp [modifyAt, countOf, List.getD]
    | succ i =>
      cases j with
      | zero => simp [modifyAt, countOf, List.getD]
      | succ j =>
        simp only [modifyAt, countOf, List.getD_cons_succ]
        exact ih i j (fun hc => h (congrArg Nat.succ hc))

theorem countOf_append_zero (w : CounterWorld) : countOf (w ++ [0]) w.length = 0 := by
  induction w with
  | nil => rfl
  | cons c cs ih => simp [countOf, List.getD]

theorem foldl_applyOp_counts (ops : List CounterOp) :
    ∀ c : Int, CounterOp.reset ∉ ops →
      ops.foldl applyOp c =
        c + (ops.countP (fun o => o == CounterOp.increment) : Int)
          - (ops.countP (fun o => o == CounterOp.decrement) : Int) := by
  induction ops with
  | nil => intro c _; simp
  | cons a l ih =>
    intro c hmem
    have ha : a ≠ CounterOp.reset := fun hc => hmem (hc ▸ List.mem_cons_self a l)
    have hl : CounterOp.reset ∉ l := fun hc => hmem (List.mem_cons_of_mem a hc)
    cases a with
    | increment =>
      simp only [List.foldl_cons, applyOp, List.countP_cons, ih (c + 1) hl]
      simp
      omega
    | decrement =>
      simp only [List.foldl_cons, applyOp, List.countP_cons, ih (c - 1) hl]
      simp
      omega
    | reset => exact absurd rfl ha

theorem stateAt_loop (d : Deferred) (t : Nat) :
    d.stateAt (Instant.loop t) =
      if d.delay ≤ t then PromiseState.settled d.settleOutcome else PromiseState.pending := rfl

theorem notifyTime_script (d : Deferred) : d.notifyTime Instant.script = d.delay := rfl

theorem notifyTime_loop (d : Deferred) (s : Nat) :
    d.notifyTime (Instant.loop s) = max s d.delay := rfl

/-- C1: a `fetchData` promise created with `shouldFail = false` eventually
settles in the success state with value `"{name} data"`; in particular
`fetchData("API 1", 500)` is fulfilled with `"API 1 data"` from scheduler time
500 on and still pending at every earlier time. -/
theorem fetchData_success_value (name : String) (delay : Nat) :
    (∀ t, delay ≤ t →
      (fetchData name delay false).stateAt (Instant.loop t) =
        PromiseState.settled (Outcome.fulfilled (name ++ " data")))
    ∧ (fetchData "API 1" 500).stateAt (Instant.loop 500) =
        PromiseState.settled (Outcome.fulfilled "API 1 data")
    ∧ (∀ t, t < 500 →
        (fetchData "API 1" 500).stateAt (Instant.loop t) = PromiseState.pending) := by
  refine ⟨fun t ht => ?_, by decide, fun t ht => ?_⟩
  · rw [stateAt_loop]
    simp [fetchData, Deferred.settleOutcome, ht]
  · rw [stateAt_loop]
    have hnot : ¬ ((fetchData "API 1" 500).delay ≤ t) := by
      simp only [fetchData]
      omega
    rw [if_neg hnot]

/-- Witness for C1: the general success clause applied at a concrete input. -/
theorem fetchData_success_value_witness :
    (fetchData "X" 3 false).stateAt (Instant.loop 7) =
      PromiseState.settled (Outcome.fulfilled ("X" ++ " data")) :=
  (fetchData_success_value "X" 3).1 7 (by decide)

/-- C2: a `fetchData` promise created with `shouldFail = true` eventually
settles in the failure state, and its reason is the plain string
`"Error fetching data from {name}"`. -/
theorem fetchData_failure_reason (name : String) (delay : Nat) :
    (∀ t, delay ≤ t →
      (fetchData name delay true).stateAt (Instant.loop t) =
        PromiseState.settled (Outcome.rejected ("Error fetching data from " ++ name)))
    ∧ (∃ r : String, (fetchData name delay true).settleOutcome = Outcome.rejected r
        ∧ r = "Error fetching data from " ++ name) := by
  refine ⟨fun t ht => ?_, ⟨"Error fetching data from " ++ name, ?_, rfl⟩⟩
  · rw [stateAt_loop]
    simp [fetchData, Deferred.settleOutcome, ht]
  · simp [fetchData, Deferred.settleOutcome]

/-- Witness for C2: the general failure clause applied at a concrete input. -/
theorem fetchData_failure_reason_witness :
    (fetchData "X" 3 true).stateAt (Instant.loop 3) =
      PromiseState.settled (Outcome.rejected ("Error fetching data from " ++ "X")) :=
  (fetchData_failure_reason "X" 3).1 3 (by decide)

/-- C7: a `fetchData` promise settles at most once: every settled observation
carries the one settlement outcome, the state never changes again after
settlement, the outcome is never both fulfilled and rejected, and every
observer is notified only at a time at which the promise is settled. -/
theorem fetchData_settles_at_most_once (name : String) (delay : Nat) (shouldFail : Bool) :
    (∀ t o, (fetchData name delay shouldFail).stateAt (Instant.loop t) =
        PromiseState.settled o → o = (fetchData name delay shouldFail).settleOutcome)
    ∧ (∀ t u o, t ≤ u →
        (fetchData name delay shouldFail).stateAt (Instant.loop t) = PromiseState.settled o →
        (fetchData name delay shouldFail).stateAt (Instant.loop u) = PromiseState.settled o)
    ∧ (∀ v r, ¬((fetchData name delay shouldFail).settleOutcome = Outcome.fulfilled v ∧
        (fetchData name delay shouldFail).settleOutcome = Outcome.rejected r))
    ∧ (∀ a, (fetchData name delay shouldFail).stateAt
        (Instant.loop ((fetchData name delay shouldFail).notifyTime a)) =
        PromiseState.settled ((fetchData name delay shouldFail).settleOutcome)) := by
  refine ⟨?_, ?_, ?_, ?_⟩
  · intro t o h
    rw [stateAt_loop] at h
    by_cases hd : (fetchData name delay shouldFail).delay ≤ t
    · rw [if_pos hd] at h
      injection h with h
      exact h.symm
    · rw [if_neg hd] at h
      cases h
  · intro t u o htu h
    rw [stateAt_loop] at h ⊢
    by_cases hd : (fetchData name delay shouldFail).delay ≤ t
    · rw [if_pos hd] at h
      rw [if_pos (Nat.le_trans hd htu)]
      exact h
    · rw [if_neg hd] at h
      cases h
  · intro v r h
    exact Outcome.noConfusion (h.1.symm.trans h.2)
  · intro a
    rw [stateAt_loop]
    cases a with
    | script => rw [notifyTime_script, if_pos (Nat.le_refl _)]
    | loop s => rw [notifyTime_loop, if_pos (Nat.le_max_right s _)]

/-- Witness for C7: persistence of the settled state at a concrete input. -/
theorem fetchData_settles_at_most_once_witness :
    (fetchData "API 1" 500 false).stateAt (Instant.loop 600) =
      PromiseState.settled ((fetchData "API 1" 500 false).settleOutcome) :=
  (fetchData_settles_at_most_once "API 1" 500 false).2.1 500 600
    ((fetchData "API 1" 500 false).settleOutcome) (by decide) (by decide)

/-- C8: a `fetchData` promise never settles synchronously: at every delay,
zero included, it is still pending throughout the task that created it, and an
observer attached after the call returns is notified at a time at which the
promise has settled, so it still receives the settlement. -/
theorem fetchData_never_settles_synchronously (name : String) (delay : Nat) (shouldFail : Bool) :
    (fetchData name delay shouldFail).stateAt Instant.script = PromiseState.pending
    ∧ (fetchData name 0 shouldFail).stateAt Instant.script = PromiseState.pending
    ∧ (fetchData name delay shouldFail).stateAt
        (Instant.loop ((fetchData name delay shouldFail).notifyTime Instant.script)) =
        PromiseState.settled ((fetchData name delay shouldFail).settleOutcome) := by
  refine ⟨rfl, rfl, ?_⟩
  rw [stateAt_loop, notifyTime_script, if_pos (Nat.le_refl _)]

/-- C9: calling `fetchData` with only a name uses the defaults
`delay = 1000` and `shouldFail = false`, so the promise is fulfilled with
`"{name} data"` from scheduler time 1000 on and pending at every earlier
time. -/
theorem fetchData_defaults (name : String) :
    fetchData name = fetchData name 1000 false
    ∧ (∀ t, 1000 ≤ t → (fetchData name).stateAt (Instant.loop t) =
        PromiseState.settled (Outcome.fulfilled (name ++ " data")))
    ∧ (∀ t, t < 1000 → (fetchData name).stateAt (Instant.loop t) = PromiseState.pending) := by
  refine ⟨rfl, fun t ht => ?_, fun t ht => ?_⟩
  · rw [stateAt_loop]
    simp [fetchData, Deferred.settleOutcome, ht]
  · rw [stateAt_loop]
    have hnot : ¬ ((fetchData name).delay ≤ t) := by
      simp only [fetchData]
      omega
    rw [if_neg hnot]

/-- Witness for C9: the default-argument clauses applied at a concrete input. -/
theorem fetchData_defaults_witness :
    (fetchData "X").stateAt (Instant.loop 1000) =
      PromiseState.settled (Outcome.fulfilled ("X" ++ " data")) :=
  (fetchData_defaults "X").2.1 1000 (by decide)

/-- C3: when every input of the all-succeed combinator succeeds, the aggregate
succeeds with the ordered sequence of the inputs' success values, element by
element in input order; when exactly one input fails, the aggregate fails with
that input's reason while every input still settles on its own; `getAllData`
and `fetchAllWithErrors` are the two concrete instances. -/
theorem promiseAll_spec (ds : List Deferred) (f : Deferred) :
    ((∀ d ∈ ds, d.shouldFail = false) →
      promiseAll ds =
        { settleTime := maxDelay ds,
          outcome := Outcome.fulfilled (ds.map Deferred.successValue) }
      ∧ ∀ (i : Nat) (h : i < ds.length),
          (ds.map Deferred.successValue).get ⟨i, by simpa using h⟩ =
            (ds.get ⟨i, h⟩).successValue)
    ∧ (ds.filter (fun d => d.shouldFail) = [f] →
        (promiseAll ds).outcome = Outcome.rejected f.failureReason
        ∧ ∀ d ∈ ds, d.stateAt (Instant.loop d.delay) = PromiseState.settled d.settleOutcome)
    ∧ promiseAll getAllDataInputs =
        { settleTime := 2000,
          outcome := Outcome.fulfilled ["API 3 data", "API 4 data", "API 5 data"] }
    ∧ (promiseAll fetchAllWithErrorsInputs).outcome =
        Outcome.rejected "Error fetching data from API 7" := by
  refine ⟨fun hall => ⟨?_, ?_⟩, fun hone => ⟨?_, ?_⟩, by decide, by decide⟩
  · have hfil : ds.filter (fun d => d.shouldFail) = [] := by
      rw [List.filter_eq_nil_iff]
      intro a ha
      simp [hall a ha]
    simp [promiseAll, hfil, firstSettling]
  · intro i h
    simp
  · simp [promiseAll, hone, firstSettling]
  · intro d hd
    rw [stateAt_loop, if_pos (Nat.le_refl _)]

/-- Witness for C3: the one-failure clause applied to the concrete
`fetchAllWithErrors` inputs. -/
theorem promiseAll_spec_witness :
    (promiseAll fetchAllWithErrorsInputs).outcome =
      Outcome.rejected (fetchData "API 7" 1200 true).failureReason :=
  ((promiseAll_spec fetchAllWithErrorsInputs (fetchData "API 7" 1200 true)).2.1
    (by decide)).1

/-- C4: with pairwise distinct delays, the first-settled combinator adopts the
outcome — success or failure alike — of the input with the smallest delay;
`getFastestData` is the concrete instance. -/
theorem promiseRace_spec (ds : List Deferred) (d : Deferred) (hmem : d ∈ ds)
    (hpw : ds.Pairwise (fun a b => a.delay ≠ b.delay))
    (hmin : ∀ e ∈ ds, d.delay ≤ e.delay) :
    promiseRace ds = some { settleTime := d.delay, outcome := d.settleOutcome }
    ∧ promiseRace getFastestDataInputs =
        some { settleTime := 500, outcome := Outcome.fulfilled "Fast API data" } := by
  refine ⟨?_, by decide⟩
  have hsymm : Symmetric fun a b : Deferred => a.delay ≠ b.delay := fun a b h => h.symm
  have hstrict : ∀ e ∈ ds, e ≠ d → d.delay < e.delay := by
    intro e he hne
    have hne' : d.delay ≠ e.delay := hpw.forall hsymm hmem he (fun hc => hne hc.symm)
    exact Nat.lt_of_le_of_ne (hmin e he) hne'
  simp [promiseRace, firstSettling_eq_of_min hmem hstrict]

/-- Witness for C4: the race over the `getFastestData` inputs, won by the
500-delay input. -/
theorem promiseRace_spec_witness :
    promiseRace getFastestDataInputs =
      some { settleTime := (fetchData "Fast API" 500).delay,
             outcome := (fetchData "Fast API" 500).settleOutcome } :=
  (promiseRace_spec getFastestDataInputs (fetchData "Fast API" 500)
    (by decide) (by decide) (by decide)).1

/-- C5: the all-settled combinator always succeeds once every input has
settled, with one entry per input in input order, each tagged fulfilled with
the input's success value or rejected with its failure reason;
`fetchWithAllSettled` is the concrete instance. -/
theorem promiseAllSettled_spec (ds : List Deferred) :
    (promiseAllSettled ds).outcome = Outcome.fulfilled (ds.map Deferred.settleOutcome)
    ∧ (ds.map Deferred.settleOutcome).length = ds.length
    ∧ (∀ (i : Nat) (h : i < ds.length),
        ((ds.get ⟨i, h⟩).shouldFail = false →
          (ds.map Deferred.settleOutcome).get ⟨i, by simpa using h⟩ =
            Outcome.fulfilled (ds.get ⟨i, h⟩).successValue)
        ∧ ((ds.get ⟨i, h⟩).shouldFail = true →
          (ds.map Deferred.settleOutcome).get ⟨i, by simpa using h⟩ =
            Outcome.rejected (ds.get ⟨i, h⟩).failureReason))
    ∧ (∀ d ∈ ds, d.delay ≤ (promiseAllSettled ds).settleTime)
    ∧ promiseAllSettled fetchWithAllSettledInputs =
        { settleTime := 1500,
          outcome := Outcome.fulfilled
            [Outcome.fulfilled "API 9 data",
             Outcome.rejected "Error fetching data from API 10",
             Outcome.fulfilled "API 11 data"] } := by
  refine ⟨rfl, by simp, fun i h => ⟨fun hs => ?_, fun hs => ?_⟩, fun d hd => ?_, by decide⟩
  · rw [List.get_eq_getElem] at hs
    simp [Deferred.settleOutcome, Deferred.successValue, hs]
  · rw [List.get_eq_getElem] at hs
    simp [Deferred.settleOutcome, Deferred.failureReason, hs]
  · exact le_maxDelay hd

/-- Witness for C5: the rejected tag of the one failing `fetchWithAllSettled`
input. -/
theorem promiseAllSettled_spec_witness :
    (fetchWithAllSettledInputs.map Deferred.settleOutcome).get ⟨1, by decide⟩ =
      Outcome.rejected (fetchWithAllSettledInputs.get ⟨1, by decide⟩).failureReason :=
  ((promiseAllSettled_spec fetchWithAllSettledInputs).2.2.1 1 (by decide)).2 (by decide)

/-- C6: a counter starts at 0; the sequence increment, increment, decrement
leaves the observable value at 1 and a subsequent reset returns it to 0; and
an operation on one instance never changes the observable value of a
different instance. -/
theorem createCounter_spec (w : CounterWorld) (i j : Nat) (op : CounterOp) (hij : i ≠ j) :
    countOf (createCounter w).1 (createCounter w).2 = 0
    ∧ runCounter [CounterOp.increment, CounterOp.increment, CounterOp.decrement] = 1
    ∧ runCounter [CounterOp.increment, CounterOp.increment, CounterOp.decrement,
        CounterOp.reset] = 0
    ∧ countOf (applyOpAt w i op) j = countOf w j :=
  ⟨countOf_append_zero w, by decide, by decide, modifyAt_countOf_ne w i j _ hij⟩

/-- Witness for C6: an increment on instance 0 leaves instance 1 untouched. -/
theorem createCounter_spec_witness :
    countOf (applyOpAt [0, 0] 0 CounterOp.increment) 1 = countOf [0, 0] 1 :=
  (createCounter_spec [0, 0] 0 1 CounterOp.increment (by decide)).2.2.2

/-- C10: since creation (or the last reset, which restores the initial state),
a counter's observable value is the number of increments minus the number of
decrements; the value is not clamped, so one decrement on a fresh counter
yields -1. -/
theorem counter_net_value (ops : List CounterOp) (h : CounterOp.reset ∉ ops) :
    runCounter ops = (ops.countP (fun o => o == CounterOp.increment) : Int)
        - (ops.countP (fun o => o == CounterOp.decrement) : Int)
    ∧ runCounter [CounterOp.decrement] = -1 := by
  refine ⟨?_, by decide⟩
  have hc := foldl_applyOp_counts ops 0 h
  simpa [runCounter] using hc

/-- Witness for C10: the count identity on a concrete reset-free sequence. -/
theorem counter_net_value_witness :
    runCounter [CounterOp.increment, CounterOp.decrement, CounterOp.decrement] =
      (([CounterOp.increment, CounterOp.decrement, CounterOp.decrement].countP
          (fun o => o == CounterOp.increment) : Int)
        - ([CounterOp.increment, CounterOp.decrement, CounterOp.decrement].countP
          (fun o => o == CounterOp.decrement) : Int)) :=
  (counter_net_value [CounterOp.increment, CounterOp.decrement, CounterOp.decrement]
    (by decide)).1

